import Mathlib

/-!
Verification of the booking application's conflict-resolution core
(`server.js`): the recurrence evaluator `isRecurringOnDate`, the
availability checker `isSpaceAvailable`, the one-year horizon scanner
`checkRecurringAvailability`, the auto-assignment endpoint, and the
reservation states reachable through the two admission endpoints.

Modelling conventions:
* JavaScript strings that are only compared for order (the `HH:MM` time
  values) are modelled as lists of UTF-16 code units (`List Nat`); the JS
  relational operators on strings are lexicographic on code units, and
  `a <= b` is defined as `!(b < a)`, which `strLe` mirrors.
* Calendar dates are modelled as `CDate` (year/month/day triples), the
  fields a JS `Date` exposes through `getFullYear`/`getMonth`/`getDate`.
  JS `Date` objects compare by their epoch value, which on days is the
  (proleptic Gregorian) day number computed by `toDay`.
* Space and booking identifiers are only compared for equality and are
  modelled as naturals; request fields that never influence the
  conflict-resolution core (requester name, e-mail) are omitted.
-/

/-! ## Definitions -/

/-- Lexicographic strict order on lists of code units: the JS `<` operator
on strings.  A proper prefix compares below the longer string. -/
def strLt : List Nat → List Nat → Bool
  | [], [] => false
  | [], _ :: _ => true
  | _ :: _, [] => false
  | a :: as, b :: bs => if a < b then true else if b < a then false else strLt as bs

/-- The JS `<=` operator on strings: `a <= b` evaluates as `!(b < a)`. -/
def strLe (a b : List Nat) : Bool := !(strLt b a)

structure CDate where
  y : Nat
  m : Nat
  d : Nat
deriving DecidableEq, Repr

/-- Gregorian leap-year rule, as implemented by the JS `Date` calendar. -/
def isLeap (y : Nat) : Bool :=
  decide ((y % 4 = 0 ∧ y % 100 ≠ 0) ∨ y % 400 = 0)

/-- Number of days in a month of the Gregorian calendar. -/
def monthLength (y m : Nat) : Nat :=
  if m = 2 then (if isLeap y then 29 else 28)
  else if m = 4 ∨ m = 6 ∨ m = 9 ∨ m = 11 then 30
  else 31

/-- A calendar date that a canonical ISO `YYYY-MM-DD` string can denote. -/
def validDate (t : CDate) : Bool :=
  decide (1 ≤ t.y ∧ 1 ≤ t.m ∧ t.m ≤ 12 ∧ 1 ≤ t.d ∧ t.d ≤ monthLength t.y t.m)

/-- Day number of a date in the proleptic Gregorian calendar (shifted so
March of year 0 is the start of the counting era).  JS `Date` values on
whole days compare exactly as these numbers do, and the formula is linear
in `d`, so it also normalises a day overflow the way the `Date`
constructor does (e.g. Feb 29 of a non-leap year lands on Mar 1). -/
def toDay (t : CDate) : Nat :=
  let yy := if t.m ≤ 2 then t.y - 1 else t.y
  let mm := if t.m ≤ 2 then t.m + 12 else t.m
  365 * yy + (yy / 4 + yy / 400 - yy / 100) + (153 * (mm - 3) + 2) / 5 + t.d

/-- JS `getDay`: 0 = Sunday … 6 = Saturday. -/
def weekdayOf (t : CDate) : Nat := (toDay t + 2) % 7

/-- The date the JS statement `current.setDate(current.getDate() + 1)`
moves a (valid) `current` to. -/
def nextDay (t : CDate) : CDate :=
  if t.d < monthLength t.y t.m then ⟨t.y, t.m, t.d + 1⟩
  else if t.m < 12 then ⟨t.y, t.m + 1, 1⟩
  else ⟨t.y + 1, 1, 1⟩

/-- The date `horizonDate.setFullYear(horizonDate.getFullYear() + 1)`
produces: same month and day, next year.  On Feb 29 the triple is
denormalised, but every use goes through `toDay`, which normalises it to
Mar 1 exactly as the JS `Date` does. -/
def addOneYear (t : CDate) : CDate := ⟨t.y + 1, t.m, t.d⟩

/-- Inverse step of `nextDay` on valid dates after January 1 of year 1. -/
def prevDay (t : CDate) : CDate :=
  if 1 < t.d then ⟨t.y, t.m, t.d - 1⟩
  else if 1 < t.m then ⟨t.y, t.m - 1, monthLength t.y (t.m - 1)⟩
  else ⟨t.y - 1, 12, 31⟩

structure RawRule where
  frequency : Option String
  weekday : Option Nat
  dayOfMonth : Option Nat
  nth : Option Nat
deriving DecidableEq, Repr

/-- `isRecurringOnDate(dateStr, recurring)` from `server.js`.  A `none`
rule models the JS guard `!recurring || typeof recurring !== 'object'`
(covering `false` and every other non-object value). -/
def isRecurringOnDate (t : CDate) (recurring : Option RawRule) : Bool :=
  match recurring with
  | none => false
  | some r =>
    if r.frequency == some "weekly" && r.weekday.isSome then
      decide (weekdayOf t = r.weekday.getD 0)
    else if r.dayOfMonth.isSome then
      decide (t.d = r.dayOfMonth.getD 0)
    else if r.nth.isSome && r.weekday.isSome then
      if weekdayOf t ≠ r.weekday.getD 0 then false
      else
        decide ((List.range' 1 t.d).countP
          (fun i => weekdayOf ⟨t.y, t.m, i⟩ == weekdayOf t) = r.nth.getD 0)
    else false

structure Booking where
  spaceId : Nat
  date : CDate
  startTime : List Nat
  endTime : List Nat
  recurring : Option RawRule
deriving DecidableEq, Repr

/-- The three-clause `overlaps` expression from `isSpaceAvailable`, with
the JS string comparisons spelled out through `strLt`/`strLe`:
`(startTime >= b.startTime && startTime < b.endTime) ||
 (endTime > b.startTime && endTime <= b.endTime) ||
 (startTime <= b.startTime && endTime >= b.endTime)`. -/
def timeConflict (startTime endTime bStart bEnd : List Nat) : Bool :=
  (strLe bStart startTime && strLt startTime bEnd) ||
  (strLt bStart endTime && strLe endTime bEnd) ||
  (strLe startTime bStart && strLe bEnd endTime)

/-- The `occursOnDate` constant inside `isSpaceAvailable`'s callback:
`b.date === date || isRecurringOnDate(date, b.recurring)`. -/
def occursOnDate (b : Booking) (date : CDate) : Bool :=
  decide (b.date = date) || isRecurringOnDate date b.recurring

/-- `isSpaceAvailable(spaceId, date, startTime, endTime)` from `server.js`,
with the global `bookings` list passed explicitly. -/
def isSpaceAvailable (bookings : List Booking) (spaceId : Nat) (date : CDate)
    (startTime endTime : List Nat) : Bool :=
  !(bookings.any fun b =>
    b.spaceId == spaceId && occursOnDate b date &&
      timeConflict startTime endTime b.startTime b.endTime)

/-- The `while (current <= horizonDate)` loop of
`checkRecurringAvailability`, with explicit fuel.  The loop body returns
`false` as soon as a rule-matching day is unavailable, and otherwise
steps `current` one day forward. -/
def scanFrom (bookings : List Booking) (spaceId : Nat)
    (startTime endTime : List Nat) (recurring : Option RawRule) :
    Nat → CDate → CDate → Bool
  | 0, _, _ => true
  | fuel + 1, current, horizon =>
    if toDay current ≤ toDay horizon then
      if isRecurringOnDate current recurring &&
          !(isSpaceAvailable bookings spaceId current startTime endTime) then false
      else
        scanFrom bookings spaceId startTime endTime recurring fuel
          (nextDay current) horizon
    else true

/-- Enough fuel for the one-year walk: the horizon is at most 366 days
after the first date (`toDay_addOneYear_bounds`), so 367 steps always
reach it; `scanFrom_eq_false_iff` shows no behaviour is lost. -/
def scanFuel : Nat := 367

/-- `checkRecurringAvailability(spaceId, firstDate, startTime, endTime,
recurring)` from `server.js`.  A `none` rule models the guard
`!recurring || typeof recurring !== 'object'`; a `none` first date models
`isNaN(startDateObj.getTime())`, i.e. a date string `new Date` cannot
parse. -/
def checkRecurringAvailability (bookings : List Booking) (spaceId : Nat)
    (firstDate : Option CDate) (startTime endTime : List Nat)
    (recurring : Option RawRule) : Bool :=
  match recurring with
  | none => true
  | some r =>
    match firstDate with
    | none => true
    | some fd =>
      scanFrom bookings spaceId startTime endTime (some r) scanFuel
        (nextDay fd) (addOneYear fd)

/-- A space as the auto-booking endpoint sees it; the display name and
other fields never influence selection and are omitted. -/
structure Space where
  id : Nat
  type : String
  priorityOrder : Int
deriving DecidableEq, Repr

/-- Insertion step of a stable ascending sort by `priorityOrder`: the new
element goes after every element of strictly smaller priority and before
the first element of greater-or-equal priority. -/
def insertByPriority (s : Space) : List Space → List Space
  | [] => [s]
  | t :: ts =>
    if t.priorityOrder < s.priorityOrder then t :: insertByPriority s ts
    else s :: t :: ts

/-- Stable ascending sort by `priorityOrder`.  This models
`candidates.sort((a, b) => a.priorityOrder - b.priorityOrder)`: ECMAScript
requires `Array.prototype.sort` to be stable, and a stable ascending sort
has a unique result, which insertion in registry order realises. -/
def sortByPriority : List Space → List Space
  | [] => []
  | s :: ss => insertByPriority s (sortByPriority ss)

/-- The selection performed by `GET /api/bookings/auto`: filter the space
registry by requested type, sort ascending by priority, and return the
first candidate the availability predicate accepts (`none` models the
404 "No spaces available" outcome). -/
def autoAssign (spaces : List Space) (ty : String) (avail : Space → Bool) :
    Option Space :=
  (sortByPriority (spaces.filter (fun s => s.type == ty))).find? avail

/-- Occurrence semantics of an admitted reservation, as the invariant
states it: a reservation without a rule occurs exactly on its stated
date; a rule-bearing reservation occurs on every date its rule matches
that is no earlier than its stated first date. -/
def occursOnClaim (b : Booking) (t : CDate) : Bool :=
  match b.recurring with
  | none => decide (b.date = t)
  | some r => isRecurringOnDate t (some r) && decide (toDay b.date ≤ toDay t)

/-- Half-open overlap of two bookings' `[start, end)` time windows in the
string order; on zero-padded `HH:MM` values this is exactly the
minutes-of-day half-open overlap (see the C10 theorems). -/
def timeOverlap (b1 b2 : Booking) : Bool :=
  strLt b1.startTime b2.endTime && strLt b2.startTime b1.endTime

/-- Reservation-set states reachable through the two admission
operations of `server.js`.  `create` is `POST /api/bookings`: the stated
date must pass `isSpaceAvailable` and, for rule-bearing requests, the
one-year horizon scan must pass (`checkRecurringAvailability` is `true`
anyway when the rule is absent, mirroring the endpoint's `rec && !check`
guard).  `auto` is `GET /api/bookings/auto`: the priority selection must
return a space, and a non-recurring booking on it is appended.  Request
validation that never reads the reservation list (name and e-mail
checks, the `auto-` id guard, the space-registry lookup, the duration
cap) is dropped: it only shrinks the set of admissible requests, and the
concrete traces exhibited below pass those dropped checks as well.
Dates model canonical `YYYY-MM-DD` request strings, hence are valid. -/
inductive Reach (spaces : List Space) : List Booking → Prop
  | nil : Reach spaces []
  | create {bs : List Booking} (b : Booking) :
      Reach spaces bs →
      validDate b.date = true →
      isSpaceAvailable bs b.spaceId b.date b.startTime b.endTime = true →
      checkRecurringAvailability bs b.spaceId (some b.date) b.startTime b.endTime
        b.recurring = true →
      Reach spaces (bs ++ [b])
  | auto {bs : List Booking} (sp : Space) (date : CDate)
      (startTime endTime : List Nat) (ty : String) :
      Reach spaces bs →
      validDate date = true →
      autoAssign spaces ty
        (fun s => isSpaceAvailable bs s.id date startTime endTime) = some sp →
      Reach spaces (bs ++ [⟨sp.id, date, startTime, endTime, none⟩])

/-- Conflict-freedom of an ordered pair of admitted reservations within
the one-year horizon of the later admission: on every valid date on
which both produce an occurrence and which is no later than one year
after the later reservation's stated first date, the time windows are
disjoint. -/
def horizonDisjoint (b1 b2 : Booking) : Prop :=
  ∀ t : CDate, validDate t = true → b1.spaceId = b2.spaceId →
    occursOnClaim b1 t = true → occursOnClaim b2 t = true →
    toDay t ≤ toDay (addOneYear b2.date) →
    timeOverlap b1 b2 = false

/-- Unbounded conflict-freedom of an ordered pair, as the specification's
invariant states it (no horizon restriction). -/
def alwaysDisjoint (b1 b2 : Booking) : Prop :=
  ∀ t : CDate, validDate t = true → b1.spaceId = b2.spaceId →
    occursOnClaim b1 t = true → occursOnClaim b2 t = true →
    timeOverlap b1 b2 = false

/-- Code unit of a decimal digit. -/
def isTimeDigit (c : Nat) : Bool := 48 ≤ c && c ≤ 57

/-- A zero-padded five-character `HH:MM` string: two digits, a colon
(code unit 58), and a two-digit minute part below 60. -/
def isPaddedHHMM (s : List Nat) : Bool :=
  match s with
  | [h1, h2, c, m1, m2] =>
    isTimeDigit h1 && isTimeDigit h2 && c == 58 && isTimeDigit m1 &&
      isTimeDigit m2 && decide ((m1 - 48) * 10 + (m2 - 48) < 60)
  | _ => false

/-- Minutes of the day denoted by an `HH:MM` (or unpadded `H:MM`) time
string; the spec-side reading of a stored time value. -/
def toMinutes (s : List Nat) : Nat :=
  match s with
  | [h1, h2, _, m1, m2] => ((h1 - 48) * 10 + (h2 - 48)) * 60 + (m1 - 48) * 10 + (m2 - 48)
  | [h1, _, m1, m2] => (h1 - 48) * 60 + (m1 - 48) * 10 + (m2 - 48)
  | _ => 0

/-- The conflict test the specification prescribes: half-open interval
overlap on minutes of the day. -/
def specMinuteConflict (s1 e1 s2 e2 : List Nat) : Bool :=
  decide (toMinutes s1 < toMinutes e2) && decide (toMinutes s2 < toMinutes e1)

/-- Arithmetic core of the 3rd-Friday pattern over a month whose day `d`
falls on weekday `(b + d) % 7`. -/
def natNthPred (b d : Nat) : Bool :=
  decide ((b + d) % 7 = 5) &&
    decide ((List.range' 1 d).countP (fun i => (b + i) % 7 == 5) = 3)

/-- Code units of a string literal, the form time values take in the
embedding. -/
def codeOf (s : String) : List Nat := s.data.map Char.toNat

/-- A one-off reservation on 2025-03-15, 10:00-11:00, space 1. -/
def bkOneOff : Booking := ⟨1, ⟨2025, 3, 15⟩, codeOf "10:00", codeOf "11:00", none⟩

/-- A monthly day-15 recurring reservation first occurring 2024-01-15,
10:30-11:30, space 1. -/
def bkRecurring : Booking :=
  ⟨1, ⟨2024, 1, 15⟩, codeOf "10:30", codeOf "11:30", some ⟨none, none, some 15, none⟩⟩

/-- A one-space registry matching the bookings above. -/
def demoSpaces : List Space := [⟨1, "office", 1⟩]

/-- Two desks; the one later in the registry has the better (lower)
priority. -/
def demoDesks : List Space := [⟨1, "desk", 2⟩, ⟨2, "desk", 1⟩]

/-! ## Theorems -/

theorem strLt_irrefl (a : List Nat) : strLt a a = false := by
  induction a with
  | nil => rfl
  | cons x xs ih => simp [strLt, ih]

theorem strLt_asymm {a b : List Nat} (h : strLt a b = true) : strLt b a = false := by
  induction a generalizing b with
  | nil =>
    cases b with
    | nil => simp [strLt] at h
    | cons y ys => simp [strLt]
  | cons x xs ih =>
    cases b with
    | nil => simp [strLt] at h
    | cons y ys =>
      simp only [strLt] at h ⊢
      rcases Nat.lt_trichotomy x y with hxy | hxy | hxy
      · simp [hxy, Nat.lt_asymm hxy]
      · subst hxy
        simp only [Nat.lt_irrefl, if_false] at h ⊢
        exact ih h
      · simp [hxy, Nat.lt_asymm hxy] at h

theorem strLt_trichotomy (a b : List Nat) :
    strLt a b = true ∨ a = b ∨ strLt b a = true := by
  induction a generalizing b with
  | nil =>
    cases b with
    | nil => simp
    | cons y ys => simp [strLt]
  | cons x xs ih =>
    cases b with
    | nil => simp [strLt]
    | cons y ys =>
      rcases Nat.lt_trichotomy x y with hxy | hxy | hxy
      · left; simp [strLt, hxy]
      · subst hxy
        rcases ih ys with h | h | h
        · left; simp [strLt, h]
        · right; left; simp [h]
        · right; right; simp [strLt, h]
      · right; right; simp [strLt, hxy, Nat.lt_asymm hxy]

theorem strLt_trans {a b c : List Nat} (hab : strLt a b = true)
    (hbc : strLt b c = true) : strLt a c = true := by
  induction a generalizing b c with
  | nil =>
    cases c with
    | nil =>
      cases b with
      | nil => simp [strLt] at hab
      | cons y ys => simp [strLt] at hbc
    | cons z zs => simp [strLt]
  | cons x xs ih =>
    cases b with
    | nil => simp [strLt] at hab
    | cons y ys =>
      cases c with
      | nil => simp [strLt] at hbc
      | cons z zs =>
        simp only [strLt] at hab hbc ⊢
        rcases Nat.lt_trichotomy x y with hxy | hxy | hxy
        · rcases Nat.lt_trichotomy y z with hyz | hyz | hyz
          · simp [Nat.lt_trans hxy hyz]
          · subst hyz; simp [hxy]
          · simp [hyz, Nat.lt_asymm hyz] at hbc
        · subst hxy
          rcases Nat.lt_trichotomy x z with hxz | hxz | hxz
          · simp [hxz]
          · subst hxz
            simp only [Nat.lt_irrefl, if_false] at hab hbc ⊢
            exact ih hab hbc
          · simp [hxz, Nat.lt_asymm hxz] at hbc
        · simp [hxy, Nat.lt_asymm hxy] at hab

theorem strLe_of_strLt {a b : List Nat} (h : strLt a b = true) : strLe a b = true := by
  simp [strLe, strLt_asymm h]

theorem strLt_of_not_strLt_of_ne {a b : List Nat} (h : strLt a b = false)
    (hne : a ≠ b) : strLt b a = true := by
  rcases strLt_trichotomy a b with h1 | h1 | h1
  · rw [h1] at h; cases h
  · exact absurd h1 hne
  · exact h1

/-- `a ≤ b` and `b < c` give `a < c` in the string order. -/
theorem strLt_of_strLe_of_strLt {a b c : List Nat} (hab : strLe a b = true)
    (hbc : strLt b c = true) : strLt a c = true := by
  rcases strLt_trichotomy a b with h | h | h
  · exact strLt_trans h hbc
  · subst h; exact hbc
  · simp [strLe, h] at hab

/-- `a < b` and `b ≤ c` give `a < c` in the string order. -/
theorem strLt_of_strLt_of_strLe {a b c : List Nat} (hab : strLt a b = true)
    (hbc : strLe b c = true) : strLt a c = true := by
  rcases strLt_trichotomy b c with h | h | h
  · exact strLt_trans hab h
  · subst h; exact hab
  · simp [strLe, h] at hbc

theorem monthLength_bounds (y m : Nat) : 28 ≤ monthLength y m ∧ monthLength y m ≤ 31 := by
  unfold monthLength
  split
  · split <;> omega
  · split <;> omega

theorem toDay_nextDay {t : CDate} (h : validDate t = true) :
    toDay (nextDay t) = toDay t + 1 := by
  obtain ⟨y, m, d⟩ := t
  simp only [validDate, decide_eq_true_eq] at h
  obtain ⟨hy, hm1, hm2, hd1, hd2⟩ := h
  by_cases hlt : d < monthLength y m
  · simp only [nextDay, if_pos hlt, toDay]
    split <;> omega
  · have hd : d = monthLength y m := by
      have := (monthLength_bounds y m).1
      omega
    subst hd
    by_cases hm : m < 12
    · simp only [nextDay, if_neg hlt, if_pos hm]
      by_cases h1 : m = 1
      · subst h1
        simp only [toDay, monthLength]
        norm_num
      · by_cases h2 : m = 2
        · subst h2
          by_cases hl : ((y % 4 = 0 ∧ y % 100 ≠ 0) ∨ y % 400 = 0)
          · have hLe : isLeap y = true := by simp [isLeap, hl]
            simp only [toDay, monthLength, hLe]
            norm_num
            omega
          · have hLe : isLeap y = false := by simp [isLeap, hl]
            simp only [toDay, monthLength, hLe]
            norm_num
            omega
        · have hm3 : 3 ≤ m := by omega
          have hm11 : m ≤ 11 := by omega
          interval_cases m <;> simp only [toDay, monthLength] <;> norm_num
    · have hm12 : m = 12 := by omega
      subst hm12
      simp only [nextDay, if_neg hlt]
      simp only [toDay, monthLength]
      norm_num

theorem validDate_nextDay {t : CDate} (h : validDate t = true) :
    validDate (nextDay t) = true := by
  obtain ⟨y, m, d⟩ := t
  simp only [validDate, decide_eq_true_eq] at h ⊢
  obtain ⟨hy, hm1, hm2, hd1, hd2⟩ := h
  have h28 := (monthLength_bounds y m).1
  by_cases hlt : d < monthLength y m
  · simp only [nextDay, if_pos hlt]
    exact ⟨hy, hm1, hm2, by omega, by omega⟩
  · by_cases hm : m < 12
    · simp only [nextDay, if_neg hlt, if_pos hm]
      have := (monthLength_bounds y (m + 1)).1
      exact ⟨hy, by omega, by omega, by omega, by omega⟩
    · simp only [nextDay, if_neg hlt, if_neg hm]
      have := (monthLength_bounds (y + 1) 1).1
      exact ⟨by omega, by omega, by omega, by omega, by omega⟩

/-- Lower bound: every valid date has day number at least 307, the day
number of January 1 of year 1. -/
theorem toDay_lowerBound {t : CDate} (h : validDate t = true) : 307 ≤ toDay t := by
  obtain ⟨y, m, d⟩ := t
  simp only [validDate, decide_eq_true_eq] at h
  obtain ⟨hy, hm1, hm2, hd1, hd2⟩ := h
  simp only [toDay]
  split <;> omega

theorem prevDay_valid {t : CDate} (h : validDate t = true) (hne : t ≠ ⟨1, 1, 1⟩) :
    validDate (prevDay t) = true := by
  obtain ⟨y, m, d⟩ := t
  simp only [validDate, decide_eq_true_eq] at h ⊢
  obtain ⟨hy, hm1, hm2, hd1, hd2⟩ := h
  by_cases hd : 1 < d
  · simp only [prevDay, if_pos hd]
    exact ⟨hy, hm1, hm2, by omega, by omega⟩
  · by_cases hm : 1 < m
    · simp only [prevDay, if_neg hd, if_pos hm]
      have := (monthLength_bounds y (m - 1)).1
      exact ⟨hy, by omega, by omega, by omega, by omega⟩
    · have hy2 : 2 ≤ y := by
        rcases Nat.lt_or_ge y 2 with h2 | h2
        · exfalso
          apply hne
          have : y = 1 := by omega
          have hm1' : m = 1 := by omega
          have hd1' : d = 1 := by omega
          simp [this, hm1', hd1']
        · exact h2
      simp only [prevDay, if_neg hd, if_neg hm]
      refine ⟨by omega, by omega, by omega, by omega, ?_⟩
      simp [monthLength]

theorem nextDay_prevDay {t : CDate} (h : validDate t = true) (hne : t ≠ ⟨1, 1, 1⟩) :
    nextDay (prevDay t) = t := by
  obtain ⟨y, m, d⟩ := t
  simp only [validDate, decide_eq_true_eq] at h
  obtain ⟨hy, hm1, hm2, hd1, hd2⟩ := h
  by_cases hd : 1 < d
  · simp only [prevDay, if_pos hd, nextDay]
    have hlt : d - 1 < monthLength y m := by omega
    simp only [if_pos hlt]
    simp
    omega
  · by_cases hm : 1 < m
    · simp only [prevDay, if_neg hd, if_pos hm, nextDay]
      have h28 := (monthLength_bounds y (m - 1)).1
      have hnlt : ¬(monthLength y (m - 1) < monthLength y (m - 1)) := by omega
      simp only [if_neg hnlt]
      have hlt12 : m - 1 < 12 := by omega
      simp only [if_pos hlt12]
      simp
      omega
    · have hy2 : 2 ≤ y := by
        rcases Nat.lt_or_ge y 2 with h2 | h2
        · exfalso
          apply hne
          have : y = 1 := by omega
          have hm1' : m = 1 := by omega
          have hd1' : d = 1 := by omega
          simp [this, hm1', hd1']
        · exact h2
      have hm1'' : m = 1 := by omega
      have hd1'' : d = 1 := by omega
      subst hm1''; subst hd1''
      simp only [prevDay, if_neg hd, if_neg hm, nextDay]
      have : ¬(31 < monthLength (y - 1) 12) := by
        have := (monthLength_bounds (y - 1) 12).2
        omega
      simp only [if_neg this]
      have : ¬((12 : Nat) < 12) := by omega
      simp only [if_neg this]
      simp
      omega

theorem iterate_nextDay_toDay {t : CDate} (h : validDate t = true) :
    nextDay^[toDay t - 307] ⟨1, 1, 1⟩ = t := by
  generalize hn : toDay t - 307 = n
  induction n generalizing t with
  | zero =>
    have hlb := toDay_lowerBound h
    have h307 : toDay t = 307 := by omega
    by_cases he : t = ⟨1, 1, 1⟩
    · simp [he]
    · exfalso
      have hv' := prevDay_valid h he
      have hnp := nextDay_prevDay h he
      have := toDay_nextDay hv'
      rw [hnp] at this
      have := toDay_lowerBound hv'
      omega
  | succ n ih =>
    have hne : t ≠ ⟨1, 1, 1⟩ := by
      intro he
      subst he
      simp [show toDay ⟨1, 1, 1⟩ = 307 from rfl] at hn
    have hv' := prevDay_valid h hne
    have hnp := nextDay_prevDay h hne
    have htd : toDay t = toDay (prevDay t) + 1 := by
      have := toDay_nextDay hv'
      rw [hnp] at this
      omega
    have hn' : toDay (prevDay t) - 307 = n := by
      have := toDay_lowerBound hv'
      omega
    rw [Function.iterate_succ_apply']
    rw [ih hv' hn', hnp]

/-- `toDay` is injective on valid dates: two distinct calendar dates have
distinct day numbers. -/
theorem toDay_inj {t u : CDate} (ht : validDate t = true) (hu : validDate u = true)
    (h : toDay t = toDay u) : t = u := by
  have h1 := iterate_nextDay_toDay ht
  have h2 := iterate_nextDay_toDay hu
  rw [← h1, ← h2, h]

/-- The `setFullYear(+1)` horizon lies between 365 and 366 days ahead. -/
theorem toDay_addOneYear_bounds {t : CDate} (h : validDate t = true) :
    toDay t + 365 ≤ toDay (addOneYear t) ∧ toDay (addOneYear t) ≤ toDay t + 366 := by
  obtain ⟨y, m, d⟩ := t
  simp only [validDate, decide_eq_true_eq] at h
  obtain ⟨hy, hm1, hm2, hd1, hd2⟩ := h
  simp only [toDay, addOneYear]
  split <;> omega

theorem timeConflict_of_overlap {s1 e1 s2 e2 : List Nat}
    (h1 : strLt s1 e2 = true) (h2 : strLt s2 e1 = true) :
    timeConflict s1 e1 s2 e2 = true := by
  by_cases hA : strLt s1 s2 = true
  · by_cases hB : strLt e2 e1 = true
    · have c1 : strLe s1 s2 = true := strLe_of_strLt hA
      have c2 : strLe e2 e1 = true := strLe_of_strLt hB
      simp [timeConflict, c1, c2]
    · have hB' : strLt e2 e1 = false := by
        cases hb : strLt e2 e1
        · rfl
        · exact absurd hb hB
      have c2 : strLe e1 e2 = true := by simp [strLe, hB']
      simp [timeConflict, h2, c2]
  · have hA' : strLt s1 s2 = false := by
      cases ha : strLt s1 s2
      · rfl
      · exact absurd ha hA
    have c1 : strLe s2 s1 = true := by simp [strLe, hA']
    simp [timeConflict, c1, h1]

theorem scanFrom_eq_false_iff (bookings : List Booking) (spaceId : Nat)
    (startTime endTime : List Nat) (r : Option RawRule) :
    ∀ (fuel : Nat) (c h : CDate), validDate c = true → toDay h < toDay c + fuel →
    (scanFrom bookings spaceId startTime endTime r fuel c h = false ↔
      ∃ t : CDate, validDate t = true ∧ toDay c ≤ toDay t ∧ toDay t ≤ toDay h ∧
        isRecurringOnDate t r = true ∧
        isSpaceAvailable bookings spaceId t startTime endTime = false) := by
  intro fuel
  induction fuel with
  | zero =>
    intro c h hc hfuel
    simp only [scanFrom]
    constructor
    · intro hf
      exact absurd hf (by simp)
    · rintro ⟨t, -, h1, h2, -, -⟩
      exfalso
      omega
  | succ fuel ih =>
    intro c h hc hfuel
    simp only [scanFrom]
    by_cases hch : toDay c ≤ toDay h
    · rw [if_pos hch]
      by_cases hbad : (isRecurringOnDate c r &&
          !(isSpaceAvailable bookings spaceId c startTime endTime)) = true
      · rw [if_pos hbad]
        simp only [Bool.and_eq_true, Bool.not_eq_true'] at hbad
        constructor
        · intro _
          exact ⟨c, hc, le_refl _, hch, hbad.1, hbad.2⟩
        · intro _
          rfl
      · rw [if_neg hbad]
        have hc' := validDate_nextDay hc
        have hstep := toDay_nextDay hc
        rw [ih (nextDay c) h hc' (by omega)]
        constructor
        · rintro ⟨t, htv, h1, h2, h3, h4⟩
          exact ⟨t, htv, by omega, h2, h3, h4⟩
        · rintro ⟨t, htv, h1, h2, h3, h4⟩
          refine ⟨t, htv, ?_, h2, h3, h4⟩
          rcases Nat.eq_or_lt_of_le h1 with heq | hlt
          · exfalso
            have hteq : t = c := toDay_inj htv hc heq.symm
            subst hteq
            apply hbad
            simp [h3, h4]
          · omega
    · rw [if_neg hch]
      constructor
      · intro hf
        exact absurd hf (by simp)
      · rintro ⟨t, -, h1, h2, -, -⟩
        exfalso
        omega

theorem checkRecurringAvailability_false_iff (bookings : List Booking) (spaceId : Nat)
    (startTime endTime : List Nat) (r : RawRule) (fd : CDate)
    (hfd : validDate fd = true) :
    checkRecurringAvailability bookings spaceId (some fd) startTime endTime (some r) = false ↔
      ∃ t : CDate, validDate t = true ∧ toDay fd < toDay t ∧
        toDay t ≤ toDay (addOneYear fd) ∧
        isRecurringOnDate t (some r) = true ∧
        isSpaceAvailable bookings spaceId t startTime endTime = false := by
  have h1 := toDay_nextDay hfd
  have h2 := toDay_addOneYear_bounds hfd
  have h3 := validDate_nextDay hfd
  simp only [checkRecurringAvailability]
  rw [scanFrom_eq_false_iff bookings spaceId startTime endTime (some r) scanFuel
    (nextDay fd) (addOneYear fd) h3 (by simp only [scanFuel]; omega)]
  constructor
  · rintro ⟨t, a, b, c, d, e⟩
    exact ⟨t, a, by omega, c, d, e⟩
  · rintro ⟨t, a, b, c, d, e⟩
    exact ⟨t, a, by omega, c, d, e⟩

theorem checkRecurringAvailability_true_implies {bookings : List Booking} {spaceId : Nat}
    {startTime endTime : List Nat} {r : RawRule} {fd t : CDate}
    (hfd : validDate fd = true)
    (hch : checkRecurringAvailability bookings spaceId (some fd) startTime endTime
      (some r) = true)
    (htv : validDate t = true) (h1 : toDay fd < toDay t)
    (h2 : toDay t ≤ toDay (addOneYear fd))
    (h3 : isRecurringOnDate t (some r) = true) :
    isSpaceAvailable bookings spaceId t startTime endTime = true := by
  by_contra hcon
  rw [Bool.not_eq_true] at hcon
  have hfalse : checkRecurringAvailability bookings spaceId (some fd) startTime endTime
      (some r) = false :=
    (checkRecurringAvailability_false_iff bookings spaceId startTime endTime r fd hfd).mpr
      ⟨t, htv, h1, h2, h3, hcon⟩
  rw [hch] at hfalse
  cases hfalse

theorem isSpaceAvailable_no_conflict {bookings : List Booking} {spaceId : Nat}
    {date : CDate} {startTime endTime : List Nat} {b : Booking}
    (h : isSpaceAvailable bookings spaceId date startTime endTime = true)
    (hb : b ∈ bookings) (hsp : b.spaceId = spaceId)
    (hocc : occursOnDate b date = true) :
    timeConflict startTime endTime b.startTime b.endTime = false := by
  simp only [isSpaceAvailable, Bool.not_eq_true', List.any_eq_false] at h
  have hb' := h b hb
  rw [hsp] at hb'
  simp only [hocc, beq_self_eq_true, Bool.true_and, Bool.and_true] at hb'
  cases hconf : timeConflict startTime endTime b.startTime b.endTime
  · rfl
  · exact absurd hconf hb'

theorem perm_insertByPriority (s : Space) (l : List Space) :
    (insertByPriority s l).Perm (s :: l) := by
  induction l with
  | nil => simp [insertByPriority]
  | cons t ts ih =>
    simp only [insertByPriority]
    split
    · exact ((ih.cons t).trans (List.Perm.swap s t ts)).symm.symm
    · exact List.Perm.refl _

theorem perm_sortByPriority (l : List Space) : (sortByPriority l).Perm l := by
  induction l with
  | nil => simp [sortByPriority]
  | cons s ss ih =>
    exact (perm_insertByPriority s (sortByPriority ss)).trans (ih.cons s)

theorem pairwise_insertByPriority {s : Space} {l : List Space}
    (h : l.Pairwise (fun a b => a.priorityOrder ≤ b.priorityOrder)) :
    (insertByPriority s l).Pairwise (fun a b => a.priorityOrder ≤ b.priorityOrder) := by
  induction l with
  | nil => simp [insertByPriority]
  | cons t ts ih =>
    rw [List.pairwise_cons] at h
    simp only [insertByPriority]
    split
    · rename_i hlt
      rw [List.pairwise_cons]
      constructor
      · intro b hb
        rcases List.mem_cons.mp ((perm_insertByPriority s ts).mem_iff.mp hb) with hb | hb
        · subst hb
          omega
        · exact h.1 b hb
      · exact ih h.2
    · rename_i hge
      rw [List.pairwise_cons]
      constructor
      · intro b hb
        rcases List.mem_cons.mp hb with hb | hb
        · subst hb
          omega
        · have := h.1 b hb
          omega
      · rw [List.pairwise_cons]
        exact h

theorem pairwise_sortByPriority (l : List Space) :
    (sortByPriority l).Pairwise (fun a b => a.priorityOrder ≤ b.priorityOrder) := by
  induction l with
  | nil => simp [sortByPriority]
  | cons s ss ih => exact pairwise_insertByPriority ih

theorem filter_insertByPriority (s : Space) (l : List Space) (k : Int) :
    (insertByPriority s l).filter (fun x => x.priorityOrder == k)
      = if s.priorityOrder = k
          then s :: l.filter (fun x => x.priorityOrder == k)
          else l.filter (fun x => x.priorityOrder == k) := by
  induction l with
  | nil =>
    by_cases hk : s.priorityOrder = k
    · simp [insertByPriority, hk]
    · simp [insertByPriority, List.filter_cons, hk]
  | cons t ts ih =>
    simp only [insertByPriority]
    split
    · rename_i hlt
      by_cases hk : s.priorityOrder = k
      · have htk : ¬(t.priorityOrder = k) := by omega
        simp [List.filter_cons, htk, ih, hk]
      · simp [List.filter_cons, ih, hk]
    · by_cases hk : s.priorityOrder = k
      · simp [List.filter_cons, hk]
      · simp [List.filter_cons, hk]

theorem filter_sortByPriority (l : List Space) (k : Int) :
    (sortByPriority l).filter (fun x => x.priorityOrder == k)
      = l.filter (fun x => x.priorityOrder == k) := by
  induction l with
  | nil => simp [sortByPriority]
  | cons s ss ih =>
    simp only [sortByPriority, filter_insertByPriority, List.filter_cons, ih]
    by_cases hk : s.priorityOrder = k
    · simp [hk]
    · simp [hk]

theorem find?_eq_some_split {α : Type} {l : List α} {p : α → Bool} {x : α}
    (h : l.find? p = some x) :
    ∃ l1 l2, l = l1 ++ x :: l2 ∧ (∀ y ∈ l1, p y = false) ∧ p x = true := by
  induction l with
  | nil => cases h
  | cons a as ih =>
    rw [List.find?_cons] at h
    split at h
    · rename_i hpa
      cases h
      exact ⟨[], as, rfl, fun y hy => absurd hy (List.not_mem_nil y), hpa⟩
    · rename_i hpa
      obtain ⟨l1, l2, heq, hall, hx⟩ := ih h
      refine ⟨a :: l1, l2, by rw [heq]; rfl, ?_, hx⟩
      intro y hy
      rcases List.mem_cons.mp hy with hy | hy
      · subst hy
        exact hpa
      · exact hall y hy

theorem autoAssign_eq_none_iff (spaces : List Space) (ty : String)
    (avail : Space → Bool) :
    autoAssign spaces ty avail = none ↔
      ∀ s ∈ spaces, s.type = ty → avail s = false := by
  simp only [autoAssign, List.find?_eq_none]
  constructor
  · intro h s hs hty
    have hmem : s ∈ sortByPriority (spaces.filter (fun x => x.type == ty)) := by
      apply (perm_sortByPriority _).mem_iff.mpr
      rw [List.mem_filter]
      exact ⟨hs, by simp [hty]⟩
    have := h s hmem
    cases ha : avail s
    · rfl
    · exact absurd ha this
  · intro h x hx
    have hx' := (perm_sortByPriority _).mem_iff.mp hx
    rw [List.mem_filter] at hx'
    have := h x hx'.1 (by simpa using hx'.2)
    simp [this]

theorem autoAssign_eq_some_spec {spaces : List Space} {ty : String}
    {avail : Space → Bool} {sp : Space}
    (h : autoAssign spaces ty avail = some sp) :
    sp ∈ spaces ∧ sp.type = ty ∧ avail sp = true ∧
      (∀ s ∈ spaces, s.type = ty → avail s = true →
        sp.priorityOrder ≤ s.priorityOrder) ∧
      ((spaces.filter (fun s => s.type == ty)).filter
          (fun s => avail s && s.priorityOrder == sp.priorityOrder)).head?
        = some sp := by
  obtain ⟨l1, l2, hsplit, hl1, hsp⟩ := find?_eq_some_split h
  have hperm := perm_sortByPriority (spaces.filter (fun x => x.type == ty))
  have hsorted := pairwise_sortByPriority (spaces.filter (fun x => x.type == ty))
  have hspmem : sp ∈ sortByPriority (spaces.filter (fun x => x.type == ty)) := by
    rw [hsplit]
    simp
  have hspcand := hperm.mem_iff.mp hspmem
  rw [List.mem_filter] at hspcand
  have hpairs := hsorted
  rw [hsplit, List.pairwise_append] at hpairs
  have hl2min : ∀ b ∈ l2, sp.priorityOrder ≤ b.priorityOrder :=
    (List.pairwise_cons.mp hpairs.2.1).1
  refine ⟨hspcand.1, by simpa using hspcand.2, hsp, ?_, ?_⟩
  · intro s hs hty ha
    have hscand : s ∈ sortByPriority (spaces.filter (fun x => x.type == ty)) := by
      apply hperm.mem_iff.mpr
      rw [List.mem_filter]
      exact ⟨hs, by simp [hty]⟩
    rw [hsplit, List.mem_append] at hscand
    rcases hscand with hscand | hscand
    · exact absurd ha (by simp [hl1 s hscand])
    · rcases List.mem_cons.mp hscand with hscand | hscand
      · subst hscand
        omega
      · exact hl2min s hscand
  · have stab := filter_sortByPriority (spaces.filter (fun x => x.type == ty))
      sp.priorityOrder
    rw [← List.filter_filter, ← stab, hsplit, List.filter_append,
      List.filter_cons_of_pos (by simp), List.filter_append,
      List.filter_cons_of_pos hsp]
    have hnil : ((l1.filter (fun x => x.priorityOrder == sp.priorityOrder)).filter
        avail) = [] := by
      rw [List.filter_eq_nil_iff]
      intro a ha
      rw [List.mem_filter] at ha
      simp [hl1 a ha.1]
    rw [hnil]
    rfl

theorem occursOnClaim_none {b : Booking} {t : CDate} (h : b.recurring = none) :
    occursOnClaim b t = decide (b.date = t) := by
  unfold occursOnClaim
  rw [h]

theorem occursOnClaim_some {b : Booking} {t : CDate} {r : RawRule}
    (h : b.recurring = some r) :
    occursOnClaim b t
      = (isRecurringOnDate t (some r) && decide (toDay b.date ≤ toDay t)) := by
  unfold occursOnClaim
  rw [h]

theorem occursOnDate_of_claim {b : Booking} {t : CDate}
    (h : occursOnClaim b t = true) : occursOnDate b t = true := by
  unfold occursOnDate
  cases hr : b.recurring with
  | none =>
    rw [occursOnClaim_none hr] at h
    rw [h, Bool.true_or]
  | some r =>
    rw [occursOnClaim_some hr] at h
    rw [Bool.and_eq_true] at h
    rw [h.1, Bool.or_true]

theorem pair_no_overlap {bs : List Booking} {b b1 : Booking} {t : CDate}
    (havail : isSpaceAvailable bs b.spaceId t b.startTime b.endTime = true)
    (hb1 : b1 ∈ bs) (hsp : b1.spaceId = b.spaceId)
    (hocc1 : occursOnClaim b1 t = true) :
    timeOverlap b1 b = false := by
  have hnc := isSpaceAvailable_no_conflict havail hb1 hsp (occursOnDate_of_claim hocc1)
  cases hov : timeOverlap b1 b
  · rfl
  · exfalso
    unfold timeOverlap at hov
    rw [Bool.and_eq_true] at hov
    have := timeConflict_of_overlap hov.2 hov.1
    rw [hnc] at this
    cases this

theorem reach_pairwise_horizonDisjoint {spaces : List Space} {bs : List Booking}
    (h : Reach spaces bs) : bs.Pairwise horizonDisjoint := by
  induction h with
  | nil => exact List.Pairwise.nil
  | @create bsPrev b hreach hv hav hrec ih =>
    rw [List.pairwise_append]
    refine ⟨ih, by simp, ?_⟩
    intro b1 hb1 b2 hb2
    rw [List.mem_singleton] at hb2
    cases hb2
    intro t htv hsp hocc1 hocc2 hhor
    have havail : isSpaceAvailable bsPrev b.spaceId t b.startTime b.endTime = true := by
      cases hr : b.recurring with
      | none =>
        rw [occursOnClaim_none hr, decide_eq_true_eq] at hocc2
        rwa [← hocc2]
      | some r =>
        rw [occursOnClaim_some hr, Bool.and_eq_true, decide_eq_true_eq] at hocc2
        rcases Nat.eq_or_lt_of_le hocc2.2 with heq | hlt
        · have hbt : b.date = t := toDay_inj hv htv heq
          rwa [← hbt]
        · rw [hr] at hrec
          exact checkRecurringAvailability_true_implies hv hrec htv hlt hhor hocc2.1
    exact pair_no_overlap havail hb1 hsp hocc1
  | @auto bsPrev sp date startTime endTime ty hreach hv hassign ih =>
    rw [List.pairwise_append]
    refine ⟨ih, by simp, ?_⟩
    intro b1 hb1 b2 hb2
    rw [List.mem_singleton] at hb2
    cases hb2
    intro t htv hsp hocc1 hocc2 hhor
    have hbd : (⟨sp.id, date, startTime, endTime, none⟩ : Booking).recurring = none :=
      rfl
    rw [occursOnClaim_none hbd, decide_eq_true_eq] at hocc2
    have havail0 := (autoAssign_eq_some_spec hassign).2.2.1
    have hdt : date = t := hocc2
    have havail : isSpaceAvailable bsPrev sp.id t startTime endTime = true := by
      rw [← hdt]
      exact havail0
    exact pair_no_overlap havail hb1 hsp hocc1

/-- On well-formed intervals (start strictly below end in the string
order) the source's three-clause test coincides with the half-open
overlap `s1 < e2 AND s2 < e1`. -/
theorem timeConflict_eq_overlap {s1 e1 s2 e2 : List Nat}
    (h1 : strLt s1 e1 = true) (h2 : strLt s2 e2 = true) :
    timeConflict s1 e1 s2 e2 = (strLt s1 e2 && strLt s2 e1) := by
  cases hov : (strLt s1 e2 && strLt s2 e1) with
  | true =>
    rw [Bool.and_eq_true] at hov
    exact timeConflict_of_overlap hov.1 hov.2
  | false =>
    cases hc : timeConflict s1 e1 s2 e2 with
    | false => rfl
    | true =>
      exfalso
      simp only [timeConflict, strLe, Bool.or_eq_true, Bool.and_eq_true,
        Bool.not_eq_true'] at hc
      have hov' : strLt s1 e2 = true ∧ strLt s2 e1 = true := by
        rcases hc with (⟨ha1, ha2⟩ | ⟨hb1, hb2⟩) | ⟨hc1, hc2⟩
        · exact ⟨ha2, strLt_of_strLe_of_strLt (by simp [strLe, ha1]) h1⟩
        · exact ⟨strLt_of_strLt_of_strLe h1 (by simp [strLe, hb2]), hb1⟩
        · exact ⟨strLt_of_strLe_of_strLt (by simp [strLe, hc1]) h2,
            strLt_of_strLt_of_strLe h2 (by simp [strLe, hc2])⟩
      rw [hov'.1, hov'.2] at hov
      simp at hov

theorem padded_shape {s : List Nat} (hs : isPaddedHHMM s = true) :
    ∃ u1 u2 u3 u4, s = [u1, u2, 58, u3, u4] ∧ 48 ≤ u1 ∧ u1 ≤ 57 ∧ 48 ≤ u2 ∧
      u2 ≤ 57 ∧ 48 ≤ u3 ∧ u3 ≤ 57 ∧ 48 ≤ u4 ∧ u4 ≤ 57 ∧
      (u3 - 48) * 10 + (u4 - 48) < 60 := by
  cases s with
  | nil => simp [isPaddedHHMM] at hs
  | cons a s =>
  cases s with
  | nil => simp [isPaddedHHMM] at hs
  | cons b s =>
  cases s with
  | nil => simp [isPaddedHHMM] at hs
  | cons c s =>
  cases s with
  | nil => simp [isPaddedHHMM] at hs
  | cons d s =>
  cases s with
  | nil => simp [isPaddedHHMM] at hs
  | cons e s =>
  cases s with
  | cons f s => simp [isPaddedHHMM] at hs
  | nil =>
    simp only [isPaddedHHMM, isTimeDigit, Bool.and_eq_true, beq_iff_eq,
      decide_eq_true_eq] at hs
    obtain ⟨⟨⟨⟨⟨⟨ha1, ha2⟩, ⟨hb1, hb2⟩⟩, hc⟩, ⟨hd1, hd2⟩⟩, ⟨he1, he2⟩⟩, hmin⟩ := hs
    subst hc
    exact ⟨a, b, d, e, rfl, ha1, ha2, hb1, hb2, hd1, hd2, he1, he2, hmin⟩

set_option maxHeartbeats 2000000 in
theorem strLt_padded {s t : List Nat} (hs : isPaddedHHMM s = true)
    (ht : isPaddedHHMM t = true) :
    strLt s t = decide (toMinutes s < toMinutes t) := by
  obtain ⟨a1, a2, a3, a4, rfl, hs1, hs2, hs3, hs4, hs5, hs6, hs7, hs8, hsm⟩ :=
    padded_shape hs
  obtain ⟨b1, b2, b3, b4, rfl, ht1, ht2, ht3, ht4, ht5, ht6, ht7, ht8, htm⟩ :=
    padded_shape ht
  simp only [strLt, toMinutes]
  split_ifs <;> symm <;>
    first
    | (rw [decide_eq_true_eq]; omega)
    | (rw [decide_eq_false_iff_not]; omega)

theorem toDay_month_linear (y m d : Nat) : toDay ⟨y, m, d⟩ = toDay ⟨y, m, 0⟩ + d := by
  simp only [toDay]
  split <;> omega

theorem weekdayOf_month (y m d : Nat) :
    weekdayOf ⟨y, m, d⟩ = ((toDay ⟨y, m, 0⟩ + 2) % 7 + d) % 7 := by
  unfold weekdayOf
  rw [toDay_month_linear]
  omega

/-- Evaluator branch for the `nth`/`weekday` pattern, in the general
form: the date's weekday equals the rule's weekday, and the running count
of days with that weekday from day 1 through the date's day equals `nth`. -/
theorem isRecurring_nth_eq (y m d n w : Nat) :
    isRecurringOnDate ⟨y, m, d⟩ (some ⟨none, some w, none, some n⟩)
      = (decide (weekdayOf ⟨y, m, d⟩ = w) &&
         decide ((List.range' 1 d).countP
           (fun i => weekdayOf ⟨y, m, i⟩ == w) = n)) := by
  by_cases hwd : weekdayOf ⟨y, m, d⟩ = w
  · simp [isRecurringOnDate, hwd]
  · simp [isRecurringOnDate, hwd]

theorem isRecurring_nth35_natPred (y m d : Nat) :
    isRecurringOnDate ⟨y, m, d⟩ (some ⟨none, some 5, none, some 3⟩)
      = natNthPred ((toDay ⟨y, m, 0⟩ + 2) % 7) d := by
  rw [isRecurring_nth_eq]
  unfold natNthPred
  simp only [weekdayOf_month]

theorem natNthPred_month (b L : Nat) (hb : b < 7) (h28 : 28 ≤ L) (h31 : L ≤ 31) :
    ((List.range' 1 L).filter (natNthPred b)).length = 1 := by
  interval_cases L
  · exact (by decide :
      ∀ bb, bb < 7 → ((List.range' 1 28).filter (natNthPred bb)).length = 1) b hb
  · exact (by decide :
      ∀ bb, bb < 7 → ((List.range' 1 29).filter (natNthPred bb)).length = 1) b hb
  · exact (by decide :
      ∀ bb, bb < 7 → ((List.range' 1 30).filter (natNthPred bb)).length = 1) b hb
  · exact (by decide :
      ∀ bb, bb < 7 → ((List.range' 1 31).filter (natNthPred bb)).length = 1) b hb

theorem nth35_exactly_one (y m : Nat) :
    ((List.range' 1 (monthLength y m)).filter
      (fun d => isRecurringOnDate ⟨y, m, d⟩
        (some ⟨none, some 5, none, some 3⟩))).length = 1 := by
  have hml := monthLength_bounds y m
  rw [List.filter_congr
    (fun d _ => isRecurring_nth35_natPred y m d)]
  exact natNthPred_month _ _ (Nat.mod_lt _ (by norm_num)) hml.1 hml.2

set_option maxRecDepth 100000 in
/-- Both demo reservations are admitted from the empty state: the
one-off lies more than a year past the recurring request's first date,
so the horizon scan never sees it. -/
theorem reach_demo : Reach demoSpaces [bkOneOff, bkRecurring] := by
  have h1 : Reach demoSpaces ([] ++ [bkOneOff]) :=
    Reach.create bkOneOff Reach.nil (by decide) (by decide) (by decide)
  have h2 : Reach demoSpaces (([] ++ [bkOneOff]) ++ [bkRecurring]) :=
    Reach.create bkRecurring h1 (by decide) (by decide) (by decide)
  exact h2

/-- C1 (counterexample to the claim as stated): from the empty state,
admitting the one-off booking for 2025-03-15 and then the monthly
recurring booking first occurring 2024-01-15 passes every admission
check, because the one-year horizon scan ends 2025-01-15; yet both
reservations produce an occurrence on 2025-03-15 with overlapping
`[start, end)` windows, so the unbounded pairwise-disjointness invariant
fails on a reachable state. -/
theorem C1_counterexample :
    Reach demoSpaces [bkOneOff, bkRecurring] ∧
    bkOneOff.spaceId = bkRecurring.spaceId ∧
    validDate ⟨2025, 3, 15⟩ = true ∧
    occursOnClaim bkOneOff ⟨2025, 3, 15⟩ = true ∧
    occursOnClaim bkRecurring ⟨2025, 3, 15⟩ = true ∧
    timeOverlap bkOneOff bkRecurring = true ∧
    ¬ alwaysDisjoint bkOneOff bkRecurring := by
  refine ⟨reach_demo, rfl, by decide, by decide, by decide, by decide, ?_⟩
  intro had
  have := had ⟨2025, 3, 15⟩ (by decide) rfl (by decide) (by decide)
  simp [show timeOverlap bkOneOff bkRecurring = true from by decide] at this

/-- C1 (amended): in every reservation-set state reachable through the
booking-creation and auto-booking operations, every ordered pair of
admitted reservations on the same space has disjoint `[start, end)`
windows on every valid co-occurrence date that lies no later than one
year after the later-admitted reservation's stated first date. -/
theorem C1_horizon_invariant {spaces : List Space} {bs : List Booking}
    (h : Reach spaces bs) : bs.Pairwise horizonDisjoint :=
  reach_pairwise_horizonDisjoint h

/-- Witness for C1: the amended invariant applied to the concrete
reachable two-booking state. -/
theorem C1_witness : List.Pairwise horizonDisjoint [bkOneOff, bkRecurring] :=
  C1_horizon_invariant reach_demo

/-- C2: on well-formed intervals the three-clause conflict test of
`isSpaceAvailable` is exactly half-open overlap (`start < bEnd AND
bStart < end`); back-to-back candidates are accepted while partial
overlap and full containment are rejected. -/
theorem C2_overlap_test (s1 e1 s2 e2 : List Nat)
    (h1 : strLt s1 e1 = true) (h2 : strLt s2 e2 = true) :
    timeConflict s1 e1 s2 e2 = (strLt s1 e2 && strLt s2 e1) ∧
    isSpaceAvailable [⟨1, ⟨2024, 1, 10⟩, codeOf "10:00", codeOf "11:00", none⟩] 1
      ⟨2024, 1, 10⟩ (codeOf "11:00") (codeOf "12:00") = true ∧
    isSpaceAvailable [⟨1, ⟨2024, 1, 10⟩, codeOf "10:30", codeOf "11:30", none⟩] 1
      ⟨2024, 1, 10⟩ (codeOf "10:00") (codeOf "11:00") = false ∧
    isSpaceAvailable [⟨1, ⟨2024, 1, 10⟩, codeOf "09:00", codeOf "12:00", none⟩] 1
      ⟨2024, 1, 10⟩ (codeOf "10:00") (codeOf "11:00") = false :=
  ⟨timeConflict_eq_overlap h1 h2, by decide, by decide, by decide⟩

/-- Witness for C2 at concrete well-formed times. -/
theorem C2_witness :
    timeConflict (codeOf "10:00") (codeOf "11:00") (codeOf "10:30") (codeOf "11:30")
      = (strLt (codeOf "10:00") (codeOf "11:30") &&
         strLt (codeOf "10:30") (codeOf "11:00")) ∧
    isSpaceAvailable [⟨1, ⟨2024, 1, 10⟩, codeOf "10:00", codeOf "11:00", none⟩] 1
      ⟨2024, 1, 10⟩ (codeOf "11:00") (codeOf "12:00") = true ∧
    isSpaceAvailable [⟨1, ⟨2024, 1, 10⟩, codeOf "10:30", codeOf "11:30", none⟩] 1
      ⟨2024, 1, 10⟩ (codeOf "10:00") (codeOf "11:00") = false ∧
    isSpaceAvailable [⟨1, ⟨2024, 1, 10⟩, codeOf "09:00", codeOf "12:00", none⟩] 1
      ⟨2024, 1, 10⟩ (codeOf "10:00") (codeOf "11:00") = false :=
  C2_overlap_test (codeOf "10:00") (codeOf "11:00") (codeOf "10:30") (codeOf "11:30")
    (by decide) (by decide)

/-- C3: with no rule the scanner trivially accepts; with a rule it
returns false exactly when some calendar date strictly after the first
date and no later than one year after it matches the rule and fails
`isSpaceAvailable`. -/
theorem C3_horizon_scan (bookings : List Booking) (spaceId : Nat)
    (startTime endTime : List Nat) (r : RawRule) (fd : CDate) (fd' : Option CDate)
    (hfd : validDate fd = true) :
    checkRecurringAvailability bookings spaceId fd' startTime endTime none = true ∧
    (checkRecurringAvailability bookings spaceId (some fd) startTime endTime
        (some r) = false ↔
      ∃ t : CDate, validDate t = true ∧ toDay fd < toDay t ∧
        toDay t ≤ toDay (addOneYear fd) ∧ isRecurringOnDate t (some r) = true ∧
        isSpaceAvailable bookings spaceId t startTime endTime = false) :=
  ⟨rfl, checkRecurringAvailability_false_iff bookings spaceId startTime endTime r fd hfd⟩

set_option maxRecDepth 100000 in
/-- Witness for C3: a one-off booking 182 days after the first date, on a
rule-matching day, makes the scan fail. -/
theorem C3_witness :
    checkRecurringAvailability
      [⟨1, ⟨2024, 7, 15⟩, codeOf "10:00", codeOf "11:00", none⟩] 1
      (some ⟨2024, 1, 15⟩) (codeOf "10:30") (codeOf "11:30")
      (some ⟨none, none, some 15, none⟩) = false :=
  (C3_horizon_scan
      [⟨1, ⟨2024, 7, 15⟩, codeOf "10:00", codeOf "11:00", none⟩] 1
      (codeOf "10:30") (codeOf "11:30") ⟨none, none, some 15, none⟩
      ⟨2024, 1, 15⟩ none (by decide)).2.mpr
    ⟨⟨2024, 7, 15⟩, by decide, by decide, by decide, by decide, by decide⟩

/-- C4: inside `isSpaceAvailable` a stored rule makes the reservation
occur on any matching date with no first-date gate, so a rule-bearing
reservation blocks matching dates even strictly before its stated first
date; first-date gating exists only in the horizon scanner, whose
conflicts are always strictly after the first date. -/
theorem C4_ungated_membership :
    (∀ (b : Booking) (t : CDate), isRecurringOnDate t b.recurring = true →
      occursOnDate b t = true) ∧
    (isSpaceAvailable [⟨1, ⟨2024, 6, 3⟩, codeOf "10:00", codeOf "11:00",
        some ⟨some "weekly", some 1, none, none⟩⟩] 1 ⟨2024, 1, 1⟩
      (codeOf "10:30") (codeOf "11:30") = false ∧
      toDay ⟨2024, 1, 1⟩ < toDay ⟨2024, 6, 3⟩) ∧
    (∀ (bookings : List Booking) (spaceId : Nat) (startTime endTime : List Nat)
      (r : RawRule) (fd : CDate), validDate fd = true →
      checkRecurringAvailability bookings spaceId (some fd) startTime endTime
        (some r) = false →
      ∃ t : CDate, validDate t = true ∧ toDay fd < toDay t ∧
        isRecurringOnDate t (some r) = true ∧
        isSpaceAvailable bookings spaceId t startTime endTime = false) := by
  refine ⟨?_, ⟨by decide, by decide⟩, ?_⟩
  · intro b t h
    unfold occursOnDate
    rw [h, Bool.or_true]
  · intro bookings spaceId startTime endTime r fd hfd hfail
    obtain ⟨t, a, b, -, d, e⟩ :=
      (checkRecurringAvailability_false_iff bookings spaceId startTime endTime
        r fd hfd).mp hfail
    exact ⟨t, a, b, d, e⟩

set_option maxRecDepth 100000 in
/-- Witness for C4: the ungated membership and the strictly-after
property at concrete inputs. -/
theorem C4_witness :
    occursOnDate ⟨1, ⟨2024, 6, 3⟩, codeOf "10:00", codeOf "11:00",
        some ⟨some "weekly", some 1, none, none⟩⟩ ⟨2024, 1, 1⟩ = true ∧
    ∃ t : CDate, validDate t = true ∧ toDay ⟨2024, 1, 15⟩ < toDay t ∧
      isRecurringOnDate t (some ⟨none, none, some 15, none⟩) = true ∧
      isSpaceAvailable [⟨1, ⟨2024, 7, 15⟩, codeOf "10:00", codeOf "11:00", none⟩] 1 t
        (codeOf "10:30") (codeOf "11:30") = false :=
  ⟨C4_ungated_membership.1 _ _ (by decide),
   C4_ungated_membership.2.2
     [⟨1, ⟨2024, 7, 15⟩, codeOf "10:00", codeOf "11:00", none⟩] 1
     (codeOf "10:30") (codeOf "11:30") ⟨none, none, some 15, none⟩
     ⟨2024, 1, 15⟩ (by decide) (by decide)⟩

/-- C5: the nth-weekday pattern holds exactly when the date's weekday is
the rule's weekday and the running count of that weekday from day 1
through the date's day equals `nth`; consequently the 3rd-Friday rule
matches exactly one date of every calendar month. -/
theorem C5_nth_weekday :
    (∀ (t : CDate) (n w : Nat),
      isRecurringOnDate t (some ⟨none, some w, none, some n⟩)
        = (decide (weekdayOf t = w) &&
           decide ((List.range' 1 t.d).countP
             (fun i => weekdayOf ⟨t.y, t.m, i⟩ == w) = n))) ∧
    (∀ y m : Nat, 1 ≤ m → m ≤ 12 →
      ((List.range' 1 (monthLength y m)).filter
        (fun d => isRecurringOnDate ⟨y, m, d⟩
          (some ⟨none, some 5, none, some 3⟩))).length = 1) :=
  ⟨fun t n w => by
    obtain ⟨y, m, d⟩ := t
    exact isRecurring_nth_eq y m d n w,
   fun y m _ _ => nth35_exactly_one y m⟩

/-- Witness for C5: January 2024 contains exactly one 3rd Friday. -/
theorem C5_witness :
    ((List.range' 1 (monthLength 2024 1)).filter
      (fun d => isRecurringOnDate ⟨2024, 1, d⟩
        (some ⟨none, some 5, none, some 3⟩))).length = 1 :=
  C5_nth_weekday.2 2024 1 (by decide) (by decide)

/-- C6: the day-of-month pattern matches exactly the dates with that day
of month, with no clamping: a day-31 rule matches nothing in any month
of at most 30 days, and in a 31-day month it matches exactly day 31. -/
theorem C6_day_of_month :
    (∀ (t : CDate) (dd : Nat),
      isRecurringOnDate t (some ⟨none, none, some dd, none⟩) = decide (t.d = dd)) ∧
    (∀ t : CDate, validDate t = true → monthLength t.y t.m ≤ 30 →
      isRecurringOnDate t (some ⟨none, none, some 31, none⟩) = false) ∧
    (∀ t : CDate, validDate t = true → monthLength t.y t.m = 31 →
      (isRecurringOnDate t (some ⟨none, none, some 31, none⟩) = true ↔ t.d = 31)) := by
  have hdom : ∀ (t : CDate) (dd : Nat),
      isRecurringOnDate t (some ⟨none, none, some dd, none⟩) = decide (t.d = dd) := by
    intro t dd
    rfl
  refine ⟨hdom, ?_, ?_⟩
  · intro t hv hml
    rw [hdom]
    simp only [validDate, decide_eq_true_eq] at hv
    apply decide_eq_false
    omega
  · intro t hv hml
    rw [hdom]
    simp only [decide_eq_true_eq]

/-- Witness for C6: a day-31 rule misses April 30 and hits January 31. -/
theorem C6_witness :
    isRecurringOnDate ⟨2024, 4, 30⟩ (some ⟨none, none, some 31, none⟩) = false ∧
    (isRecurringOnDate ⟨2024, 1, 31⟩ (some ⟨none, none, some 31, none⟩) = true ↔
      (⟨2024, 1, 31⟩ : CDate).d = 31) :=
  ⟨C6_day_of_month.2.1 ⟨2024, 4, 30⟩ (by decide) (by decide),
   C6_day_of_month.2.2 ⟨2024, 1, 31⟩ (by decide) (by decide)⟩

/-- C7: the auto-booking selection returns no space exactly when no
space of the requested category is available, and any returned space is
an available space of the category with minimal priority among the
available ones, the earliest in registry order among the available ones
sharing that priority; the desk scenarios from the specification follow
concretely. -/
theorem C7_auto_assignment (spaces : List Space) (bookings : List Booking)
    (ty : String) (date : CDate) (startTime endTime : List Nat) :
    ((autoAssign spaces ty
        (fun s => isSpaceAvailable bookings s.id date startTime endTime) = none ↔
      ∀ s ∈ spaces, s.type = ty →
        isSpaceAvailable bookings s.id date startTime endTime = false) ∧
    (∀ sp : Space,
      autoAssign spaces ty
          (fun s => isSpaceAvailable bookings s.id date startTime endTime) = some sp →
      sp ∈ spaces ∧ sp.type = ty ∧
        isSpaceAvailable bookings sp.id date startTime endTime = true ∧
        (∀ s ∈ spaces, s.type = ty →
          isSpaceAvailable bookings s.id date startTime endTime = true →
          sp.priorityOrder ≤ s.priorityOrder) ∧
        ((spaces.filter (fun s => s.type == ty)).filter
            (fun s => isSpaceAvailable bookings s.id date startTime endTime &&
              s.priorityOrder == sp.priorityOrder)).head? = some sp)) ∧
    autoAssign demoDesks "desk"
      (fun s => isSpaceAvailable [] s.id ⟨2024, 1, 10⟩ (codeOf "10:00")
        (codeOf "11:00")) = some ⟨2, "desk", 1⟩ ∧
    autoAssign demoDesks "desk"
      (fun s => isSpaceAvailable [⟨2, ⟨2024, 1, 10⟩, codeOf "10:00", codeOf "11:00",
          none⟩] s.id ⟨2024, 1, 10⟩ (codeOf "10:00") (codeOf "11:00"))
      = some ⟨1, "desk", 2⟩ ∧
    autoAssign demoDesks "desk"
      (fun s => isSpaceAvailable [⟨2, ⟨2024, 1, 10⟩, codeOf "10:00", codeOf "11:00",
          none⟩, ⟨1, ⟨2024, 1, 10⟩, codeOf "10:00", codeOf "11:00", none⟩] s.id
        ⟨2024, 1, 10⟩ (codeOf "10:00") (codeOf "11:00")) = none :=
  ⟨⟨autoAssign_eq_none_iff spaces ty _,
    fun sp h => autoAssign_eq_some_spec h⟩,
   by decide, by decide, by decide⟩

/-- Witness for C7: the selection spec applied to the concrete two-desk
registry with both desks free. -/
theorem C7_witness :
    (⟨2, "desk", 1⟩ : Space) ∈ demoDesks ∧ (⟨2, "desk", 1⟩ : Space).type = "desk" ∧
    isSpaceAvailable [] (⟨2, "desk", 1⟩ : Space).id ⟨2024, 1, 10⟩ (codeOf "10:00")
      (codeOf "11:00") = true ∧
    (∀ s ∈ demoDesks, s.type = "desk" →
      isSpaceAvailable [] s.id ⟨2024, 1, 10⟩ (codeOf "10:00") (codeOf "11:00") = true →
      (⟨2, "desk", 1⟩ : Space).priorityOrder ≤ s.priorityOrder) ∧
    ((demoDesks.filter (fun s => s.type == "desk")).filter
        (fun s => isSpaceAvailable [] s.id ⟨2024, 1, 10⟩ (codeOf "10:00")
            (codeOf "11:00") &&
          s.priorityOrder == (⟨2, "desk", 1⟩ : Space).priorityOrder)).head?
      = some ⟨2, "desk", 1⟩ :=
  (C7_auto_assignment demoDesks [] "desk" ⟨2024, 1, 10⟩ (codeOf "10:00")
    (codeOf "11:00")).1.2 ⟨2, "desk", 1⟩ (by decide)

/-- C8: the evaluator is total and lenient: an absent (or non-object)
rule yields false, and a rule object with none of the three complete
patterns (weekly frequency with weekday, day-of-month, nth with weekday)
yields false rather than failing. -/
theorem C8_total_evaluator :
    (∀ t : CDate, isRecurringOnDate t none = false) ∧
    (∀ (t : CDate) (r : RawRule),
      (r.frequency ≠ some "weekly" ∨ r.weekday = none) →
      r.dayOfMonth = none →
      (r.nth = none ∨ r.weekday = none) →
      isRecurringOnDate t (some r) = false) := by
  refine ⟨fun t => rfl, ?_⟩
  intro t r hfw hdm hnw
  obtain ⟨f, w, dm, nh⟩ := r
  simp only at hfw hdm hnw
  subst hdm
  rcases hnw with hnh | hw
  · subst hnh
    rcases hfw with hf | hw
    · simp [isRecurringOnDate, hf]
    · subst hw
      simp [isRecurringOnDate]
  · subst hw
    simp [isRecurringOnDate]

/-- Witness for C8: a malformed rule with a frequency of "monthly" and
only an `nth` field evaluates to false. -/
theorem C8_witness :
    isRecurringOnDate ⟨2024, 1, 1⟩
      (some ⟨some "monthly", none, none, some 3⟩) = false :=
  C8_total_evaluator.2 ⟨2024, 1, 1⟩ ⟨some "monthly", none, none, some 3⟩
    (Or.inl (by decide)) rfl (Or.inr rfl)

/-- C9: when the first date does not parse, the horizon scan is skipped
and `checkRecurringAvailability` reports the recurring reservation as
conflict-free, whatever the rule and the existing reservations. -/
theorem C9_unparseable_first_date :
    ∀ (bookings : List Booking) (spaceId : Nat) (startTime endTime : List Nat)
      (recurring : Option RawRule),
      checkRecurringAvailability bookings spaceId none startTime endTime
        recurring = true := by
  intro bookings spaceId startTime endTime recurring
  cases recurring <;> rfl

/-- C10 (counterexample to the claim as stated): with all four time
values zero-padded `HH:MM` strings but a reversed candidate interval,
the string-ordered three-clause test reports a conflict while the
specified minutes-of-day half-open-interval test does not, so padding
alone does not make the two tests equal. -/
theorem C10_counterexample :
    isPaddedHHMM (codeOf "10:00") = true ∧ isPaddedHHMM (codeOf "09:00") = true ∧
    isPaddedHHMM (codeOf "11:00") = true ∧
    timeConflict (codeOf "10:00") (codeOf "09:00") (codeOf "10:00")
      (codeOf "11:00") = true ∧
    specMinuteConflict (codeOf "10:00") (codeOf "09:00") (codeOf "10:00")
      (codeOf "11:00") = false := by
  refine ⟨by decide, by decide, by decide, by decide, by decide⟩

/-- C10 (amended): on zero-padded five-character `HH:MM` strings denoting
well-formed intervals (start before end in minutes), the string-ordered
conflict test of `isSpaceAvailable` equals the specified minutes-of-day
half-open-interval conflict test; without zero padding the two tests can
disagree even on well-formed intervals, as the `9:00` candidate shows. -/
theorem C10_padded_equivalence (s1 e1 s2 e2 : List Nat)
    (hp1 : isPaddedHHMM s1 = true) (hp2 : isPaddedHHMM e1 = true)
    (hp3 : isPaddedHHMM s2 = true) (hp4 : isPaddedHHMM e2 = true)
    (hw1 : toMinutes s1 < toMinutes e1) (hw2 : toMinutes s2 < toMinutes e2) :
    timeConflict s1 e1 s2 e2 = specMinuteConflict s1 e1 s2 e2 ∧
    timeConflict (codeOf "9:00") (codeOf "11:00") (codeOf "10:00")
      (codeOf "10:30") = false ∧
    specMinuteConflict (codeOf "9:00") (codeOf "11:00") (codeOf "10:00")
      (codeOf "10:30") = true := by
  refine ⟨?_, by decide, by decide⟩
  have hwf1 : strLt s1 e1 = true := by
    rw [strLt_padded hp1 hp2]
    exact decide_eq_true hw1
  have hwf2 : strLt s2 e2 = true := by
    rw [strLt_padded hp3 hp4]
    exact decide_eq_true hw2
  rw [timeConflict_eq_overlap hwf1 hwf2]
  unfold specMinuteConflict
  rw [strLt_padded hp1 hp4, strLt_padded hp3 hp2]

/-- Witness for C10 at concrete padded well-formed times. -/
theorem C10_witness :
    timeConflict (codeOf "10:00") (codeOf "11:00") (codeOf "10:30") (codeOf "11:30")
      = specMinuteConflict (codeOf "10:00") (codeOf "11:00") (codeOf "10:30")
        (codeOf "11:30") ∧
    timeConflict (codeOf "9:00") (codeOf "11:00") (codeOf "10:00")
      (codeOf "10:30") = false ∧
    specMinuteConflict (codeOf "9:00") (codeOf "11:00") (codeOf "10:00")
      (codeOf "10:30") = true :=
  C10_padded_equivalence (codeOf "10:00") (codeOf "11:00") (codeOf "10:30")
    (codeOf "11:30") (by decide) (by decide) (by decide) (by decide)
    (by decide) (by decide)
